import Mathlib

/-! Verification of the FO4 Modding Assistant search/ranking pipeline.

This file gives a shallow embedding of the text-relevance ranking pipeline of
the repository (src/lib/search.ts and src/lib/algorithms.ts) and proves the
testable properties stated in the specification about it.

Modelling conventions:
* JavaScript strings are modelled as `List Char` (`Str`); `toLowerCase`,
  `trim`, `split(/\s+/)`, `includes`, `indexOf` are modelled by executable
  functions below that follow the ECMAScript semantics used by the source
  (in particular `split(/\s+/)` keeps the empty boundary pieces that arise
  from leading/trailing whitespace, and `"".split(/\s+/)` is `[""]`).
* JavaScript numbers are modelled as `ℚ`.  The only transcendental operation
  in the source is `Math.log` inside `calculateIDF`; the whole pipeline is
  therefore parametrised by an arbitrary function `jslog : ℚ → ℚ` standing
  for the natural logarithm.  None of the verified properties depend on the
  values of the logarithm.
* The one place where the source can actually produce the IEEE value `NaN`
  (the `0/0` arising from the Jaccard coefficient of two empty sets) is
  modelled explicitly with `Option ℚ`, `none` playing the role of `NaN`.
* `Array.prototype.sort` with comparator `(a, b) => b.score - a.score` is a
  stable descending sort by score (ES2019); it is modelled by
  `List.insertionSort` with the relation `resultGE`.
-/

/-- JavaScript strings, modelled as lists of characters. -/
abbrev Str := List Char

/-- Model of `String.prototype.toLowerCase`, restricted to the basic-latin mapping. -/
def jsToLower (s : Str) : Str := s.map Char.toLower

/-- Model of `String.prototype.trim`: drop leading and trailing whitespace. -/
def jsTrim (s : Str) : Str :=
  (((s.dropWhile Char.isWhitespace).reverse.dropWhile Char.isWhitespace)).reverse

/-- Test that `pat` occurs at the very start of `s`. -/
def startsWith : Str → Str → Bool
  | [], _ => true
  | _ :: _, [] => false
  | a :: as, b :: bs => a == b && startsWith as bs

/-- Model of `String.prototype.indexOf`: index of the first occurrence of `pat`,
`none` when there is none (JS returns `-1`). -/
def jsIndexOf (hay pat : Str) : Option Nat :=
  if startsWith pat hay then some 0
  else
    match hay with
    | [] => none
    | _ :: t => (jsIndexOf t pat).map (· + 1)

/-- Model of `String.prototype.includes`. -/
def includesStr (hay pat : Str) : Bool := (jsIndexOf hay pat).isSome

/-- Model of `String.prototype.split(/\s+/)`: split on maximal whitespace runs.  Leading
whitespace contributes an initial `""` piece, trailing whitespace a final one,
and the split of `""` is `[""]`, exactly as in ECMAScript. -/
def jsSplitWs (s : Str) : List Str :=
  match h : s.dropWhile (fun c => !c.isWhitespace) with
  | [] => [s.takeWhile (fun c => !c.isWhitespace)]
  | _ :: rest =>
    s.takeWhile (fun c => !c.isWhitespace) :: jsSplitWs (rest.dropWhile Char.isWhitespace)
termination_by s.length
decreasing_by
  have h1 : (s.dropWhile (fun c => !c.isWhitespace)).length ≤ s.length :=
    (List.dropWhile_sublist _).length_le
  rw [h] at h1
  have h2 : (rest.dropWhile Char.isWhitespace).length ≤ rest.length :=
    (List.dropWhile_sublist _).length_le
  simp at h1
  omega

/-- Model of `Array.prototype.join(" ")`. -/
def joinSpace : List Str → Str
  | [] => []
  | x :: xs => xs.foldl (fun a t => a ++ ' ' :: t) x

/-- The occurrence-scanning loop of `searchKnowledgeBase`
(`while ((pos = text.indexOf(term, pos)) !== -1) { push [pos, pos+len]; pos += len }`):
record the non-overlapping occurrences of `pat` left to right.  `rem` is the
part of the haystack not yet scanned and `off` its offset in the full string.
The source never runs this loop with an empty pattern (all terms have length
`> 2`); on the empty pattern, where the JS loop would not terminate, the model
returns `[]`. -/
def findAllOccAux (pat : Str) (rem : Str) (off : Nat) : List (Nat × Nat) :=
  match hp : pat, h : jsIndexOf rem pat with
  | [], _ => []
  | _ :: _, none => []
  | a :: ps, some p =>
    (off + p, off + p + pat.length) ::
      findAllOccAux pat (rem.drop (p + pat.length)) (off + p + pat.length)
termination_by rem.length
decreasing_by
  have hne : rem ≠ [] := by
    intro hnil
    rw [hnil, hp] at h
    simp [jsIndexOf, startsWith] at h
  have hlen : 0 < rem.length := List.length_pos.mpr hne
  have hplen : 0 < pat.length := by rw [hp]; simp
  simp only [List.length_drop]
  omega

/-- All non-overlapping occurrences of `pat` in `hay`, as `[start, end)` pairs. -/
def findAllOcc (hay pat : Str) : List (Nat × Nat) := findAllOccAux pat hay 0

/-- Model of `levenshteinDistance` (algorithms.ts).  The source fills a DP table with
the textbook unit-cost recurrence (deletion / insertion / substitution); the
model computes the same recurrence by structural recursion. -/
def levenshteinDistance : Str → Str → Nat
  | [], ys => ys.length
  | xs, [] => xs.length
  | x :: xs, y :: ys =>
    min (levenshteinDistance xs (y :: ys) + 1)
      (min (levenshteinDistance (x :: xs) ys + 1)
        (levenshteinDistance xs ys + (if x = y then 0 else 1)))
termination_by a b => a.length + b.length
decreasing_by all_goals (simp only [List.length_cons]; omega)

/-- Model of `levenshteinSimilarity` (algorithms.ts): `1 - distance / max(len1, len2)`,
with the similarity of two empty strings defined as `1`. -/
def levenshteinSimilarity (str1 str2 : Str) : ℚ :=
  let maxLength := max str1.length str2.length
  if maxLength = 0 then 1
  else 1 - (levenshteinDistance str1 str2 : ℚ) / (maxLength : ℚ)

/-- Model of `KnowledgeEntry` (types.ts): the fields consumed by the scoring pipeline.
The metadata fields (`moduleId`, timestamps) are never read by the search code
and are omitted. -/
structure KnowledgeEntry where
  id : Str
  title : Str
  content : Str
  keywords : List Str
deriving DecidableEq, Repr

/-- The `field` of a highlight record (`"title" | "content"`). -/
inductive MatchField where
  | title
  | content
deriving DecidableEq, Repr

/-- One element of `SearchResult.matches`. -/
structure MatchInfo where
  field : MatchField
  positions : List (Nat × Nat)
deriving DecidableEq, Repr

/-- Model of `SearchResult` (types.ts). -/
structure SearchResult where
  entry : KnowledgeEntry
  score : ℚ
  «matches» : List MatchInfo
deriving DecidableEq, Repr

/-- The two `Settings` fields consumed by the search pipeline
(`relevanceThreshold` and `maxResults`); the remaining settings fields
(`darkMode`, `theme`, …) are never read by the search code. -/
structure Settings where
  relevanceThreshold : ℚ
  maxResults : Nat
deriving DecidableEq, Repr

/-- The descending-score ordering used by the source's
`sort((a, b) => b.score - a.score)`. -/
def resultGE (a b : SearchResult) : Prop := b.score ≤ a.score

instance : DecidableRel resultGE := fun a b =>
  inferInstanceAs (Decidable (b.score ≤ a.score))

instance : IsTotal SearchResult resultGE := ⟨fun a b => le_total b.score a.score⟩

instance : IsTrans SearchResult resultGE := ⟨fun _ _ _ h1 h2 => le_trans h2 h1⟩

/-- Model of `jaccardSimilarity` (algorithms.ts): `intersection.size / union.size`.
When both sets are empty the source divides `0` by `0`, which in JavaScript
is `NaN`; the model returns `none` in exactly that case and
`some (|A ∩ B| / |A ∪ B|)` otherwise. -/
def jaccardSimilarity (set1 set2 : Finset Str) : Option ℚ :=
  if (set1 ∪ set2).card = 0 then none
  else some (((set1 ∩ set2).card : ℚ) / ((set1 ∪ set2).card : ℚ))

/-- Model of `calculateTF` (algorithms.ts):
`document.toLowerCase().split(term.toLowerCase()).length - 1` (the number of
non-overlapping occurrences of the lowercased term) divided by
`document.split(/\s+/).length`.  For the empty term, JS `split("")` yields one
piece per character, so the numerator is `length - 1`; the pipeline never
reaches that case since every term it passes has length `> 2`. -/
def calculateTF (term document : Str) : ℚ :=
  let termCount : ℚ :=
    if term = [] then (document.length : ℚ) - 1
    else ((findAllOcc (jsToLower document) (jsToLower term)).length : ℚ)
  let wordCount : ℚ := ((jsSplitWs document).length : ℚ)
  termCount / wordCount

/-- Model of `calculateIDF` (algorithms.ts): `ln(N / (docsWithTerm + 1)) + 1`, with the
logarithm abstracted as `jslog`. -/
def calculateIDF (jslog : ℚ → ℚ) (term : Str) (documents : List Str) : ℚ :=
  let numDocsWithTerm :=
    (documents.filter (fun doc => includesStr (jsToLower doc) (jsToLower term))).length
  jslog ((documents.length : ℚ) / ((numDocsWithTerm : ℚ) + 1)) + 1

/-- Model of `calculateTFIDF` (algorithms.ts). -/
def calculateTFIDF (jslog : ℚ → ℚ) (term document : Str) (documents : List Str) : ℚ :=
  calculateTF term document * calculateIDF jslog term documents

/-- Model of `calculateBM25` (algorithms.ts).  `k1 = 1.5` and `b = 0.75` are the default
parameters; no caller overrides them. -/
def calculateBM25 (jslog : ℚ → ℚ) (query document : Str) (avgDocLength : ℚ)
    (documents : List Str) : ℚ :=
  let k1 : ℚ := 3 / 2
  let b : ℚ := 3 / 4
  let terms := (jsSplitWs (jsToLower query)).filter (fun t => t.length > 2)
  let docLength : ℚ := ((jsSplitWs document).length : ℚ)
  terms.foldl
    (fun score t =>
      let tf := calculateTF t document
      let idf := calculateIDF jslog t documents
      score + idf * (tf * (k1 + 1) / (tf + k1 * (1 - b + b * (docLength / avgDocLength)))))
    0

/-- Model of `calculateSimilarity` (search.ts): `0.7 ·` Jaccard over the length->2 token
sets `+ 0.3 ·` Levenshtein similarity of the raw texts (the latter only when
both texts are shorter than 100 characters).  The Jaccard part is the same
`intersection.size / union.size` computation inlined in the source, so when
both token sets are empty the result is JS `NaN`, modelled by `none`. -/
def calculateSimilarity (text1 text2 : Str) : Option ℚ :=
  let tokens1 := (jsSplitWs (jsToLower text1)).filter (fun t => t.length > 2)
  let tokens2 := (jsSplitWs (jsToLower text2)).filter (fun t => t.length > 2)
  let levenshteinScore : ℚ :=
    if text1.length < 100 ∧ text2.length < 100 then levenshteinSimilarity text1 text2
    else 0
  (jaccardSimilarity tokens1.toFinset tokens2.toFinset).map
    (fun jaccardScore => jaccardScore * (7 / 10) + levenshteinScore * (3 / 10))

/-- The hardcoded stopword list of `expandQuery` (algorithms.ts), in source
order, duplicates included. -/
def stopWords : List Str :=
  ["the".toList, "and".toList, "but".toList, "for".toList, "or".toList,
   "nor".toList, "so".toList, "yet".toList, "a".toList, "an".toList,
   "in".toList, "to".toList, "of".toList, "at".toList, "by".toList,
   "for".toList, "with".toList, "about".toList, "against".toList,
   "between".toList, "into".toList, "through".toList, "during".toList,
   "before".toList, "after".toList, "above".toList, "below".toList,
   "from".toList, "up".toList, "down".toList, "on".toList, "off".toList,
   "over".toList, "under".toList, "again".toList, "further".toList,
   "then".toList, "once".toList, "here".toList, "there".toList,
   "when".toList, "where".toList, "why".toList, "how".toList, "all".toList,
   "any".toList, "both".toList, "each".toList, "few".toList, "more".toList,
   "most".toList, "other".toList, "some".toList, "such".toList, "no".toList,
   "nor".toList, "not".toList, "only".toList, "own".toList, "same".toList,
   "so".toList, "than".toList, "too".toList, "very".toList, "can".toList,
   "will".toList, "just".toList]

/-- Model of `new Set(...).add`: append an element unless already present (JS `Set`
preserves insertion order). -/
def addUniq (l : List Str) (x : Str) : List Str :=
  if x ∈ l then l else l ++ [x]

/-- The document text `entry.title + " " + entry.content` used throughout. -/
def docOf (e : KnowledgeEntry) : Str := e.title ++ ' ' :: e.content

/-- The term list built by `expandQuery` (algorithms.ts) before it is joined
with spaces: the (deduplicated) query terms plus admitted expansion terms,
truncated to `queryTerms.length + 3`. -/
def expandQueryList (query : Str) (entries : List KnowledgeEntry) : List Str :=
  let queryTerms := (jsSplitWs (jsToLower query)).filter (fun t => t.length > 2)
  let base := queryTerms.foldl addUniq []
  let expanded := entries.foldl
    (fun acc entry =>
      match calculateSimilarity query (docOf entry) with
      | none => acc
      | some similarity =>
        if similarity > 3 / 10 then
          let entryTerms := (jsSplitWs (jsToLower (docOf entry))).filter
            (fun term => term.length > 3 && !(queryTerms.contains term)
              && !(stopWords.contains term))
          entryTerms.foldl
            (fun a term =>
              if queryTerms.any
                  (fun qTerm => decide (levenshteinSimilarity qTerm term > 7 / 10)
                    || includesStr term qTerm || includesStr qTerm term)
              then addUniq a term else a)
            acc
        else acc)
    base
  expanded.take (queryTerms.length + 3)

/-- Model of `expandQuery` (algorithms.ts): the expansion term list joined with `" "`.
A `NaN` similarity (the `none` case) fails the `similarity > 0.3` comparison
in JS, so the entry is skipped, as in the `none` branch above. -/
def expandQuery (query : Str) (entries : List KnowledgeEntry) : Str :=
  joinSpace (expandQueryList query entries)

/-- Exact-phrase-in-title signal of `searchKnowledgeBase` (search.ts): `+10`
when the normalized query is a substring of the lowercased title. -/
def exactTitleScore (nq titleText : Str) : ℚ :=
  if includesStr titleText nq then 10 else 0

/-- Highlight record of the exact-phrase-in-title signal: one span starting at
`titleText.indexOf(normalizedQuery)`. -/
def exactTitleMatches (nq titleText : Str) : List MatchInfo :=
  match jsIndexOf titleText nq with
  | some startPos => [⟨MatchField.title, [(startPos, startPos + nq.length)]⟩]
  | none => []

/-- Exact-phrase-in-content signal: `+5` when the normalized query is a
substring of the lowercased content. -/
def exactContentScore (nq contentText : Str) : ℚ :=
  if includesStr contentText nq then 5 else 0

/-- Highlight record of the exact-phrase-in-content signal. -/
def exactContentMatches (nq contentText : Str) : List MatchInfo :=
  match jsIndexOf contentText nq with
  | some startPos => [⟨MatchField.content, [(startPos, startPos + nq.length)]⟩]
  | none => []

/-- The per-term scoring loop of `searchKnowledgeBase`: `+w` for every term of
`terms` that occurs in `text`.  The source repeats this loop inline four times
(query/expanded terms × title/content) with weights 3, 1.5, 1, 0.5. -/
def termLoopScore (terms : List Str) (text : Str) (w : ℚ) : ℚ :=
  terms.foldl (fun score term => if includesStr text term then score + w else score) 0

/-- The highlight records produced by a per-term scoring loop: for every
matching term, all of its non-overlapping occurrences (the record is pushed
only when the position list is non-empty, as in the source). -/
def termLoopMatches (terms : List Str) (text : Str) (fld : MatchField) : List MatchInfo :=
  terms.foldl
    (fun acc term =>
      if includesStr text term then
        let positions := findAllOcc text term
        if positions.length > 0 then acc ++ [⟨fld, positions⟩] else acc
      else acc)
    []

/-- Keyword signals of `searchKnowledgeBase`: per keyword, `+5` for exact
equality with the query, else `+3` if the keyword contains the query; `+2` for
every query term the keyword contains; and `+ similarity * 2` for every query
term with Levenshtein similarity `> 0.8` to the keyword. -/
def keywordScore (nq : Str) (queryTerms : List Str) (keywords : List Str) : ℚ :=
  keywords.foldl
    (fun score keyword =>
      let keywordLower := jsToLower keyword
      let s1 :=
        if keywordLower = nq then score + 5
        else if includesStr keywordLower nq then score + 3
        else score
      let s2 := queryTerms.foldl
        (fun a term => if includesStr keywordLower term then a + 2 else a) s1
      queryTerms.foldl
        (fun a term =>
          let similarity := levenshteinSimilarity term keywordLower
          if similarity > 4 / 5 then a + similarity * 2 else a)
        s2)
    0

/-- TF-IDF signal of the first pass: `+ tfidf * 2` per query term. -/
def tfidfScore (jslog : ℚ → ℚ) (queryTerms : List Str) (document : Str)
    (allDocuments : List Str) : ℚ :=
  queryTerms.foldl
    (fun score term => score + calculateTFIDF jslog term document allDocuments * 2) 0

/-- Document-level Jaccard signal of the first pass: `jaccard * 3` between the
query-term set and the document's length->2 token set.  The query-term set is
non-empty at the (guarded) call site, so the union is never empty and the
`getD 0` default (standing for the unreachable `NaN`) is never taken. -/
def docJaccardScore (queryTerms : List Str) (document : Str) : ℚ :=
  let documentTerms := (jsSplitWs (jsToLower document)).filter (fun t => t.length > 2)
  ((jaccardSimilarity queryTerms.toFinset documentTerms.toFinset).getD 0) * 3

/-- The first-pass score components that the source accumulates after the
exact-phrase-in-content check: per-term content matches, expanded-term content
matches, keyword signals, TF-IDF, document Jaccard. -/
def scoreTail2 (jslog : ℚ → ℚ) (nq : Str) (queryTerms expandedTerms : List Str)
    (allEntries : List KnowledgeEntry) (entry : KnowledgeEntry) : ℚ :=
  termLoopScore queryTerms (jsToLower entry.content) 1 +
    (termLoopScore expandedTerms (jsToLower entry.content) (1 / 2) +
      (keywordScore nq queryTerms entry.keywords +
        (tfidfScore jslog queryTerms (docOf entry) (allEntries.map docOf) +
          docJaccardScore queryTerms (docOf entry))))

/-- The first-pass score components accumulated after the
exact-phrase-in-title check. -/
def scoreTail1 (jslog : ℚ → ℚ) (nq : Str) (queryTerms expandedTerms : List Str)
    (allEntries : List KnowledgeEntry) (entry : KnowledgeEntry) : ℚ :=
  termLoopScore queryTerms (jsToLower entry.title) 3 +
    (termLoopScore expandedTerms (jsToLower entry.title) (3 / 2) +
      (exactContentScore nq (jsToLower entry.content) +
        scoreTail2 jslog nq queryTerms expandedTerms allEntries entry))

/-- The highlight records pushed after the exact-phrase-in-content check. -/
def matchTail2 (nq : Str) (queryTerms expandedTerms : List Str)
    (entry : KnowledgeEntry) : List MatchInfo :=
  termLoopMatches queryTerms (jsToLower entry.content) MatchField.content ++
    termLoopMatches expandedTerms (jsToLower entry.content) MatchField.content

/-- The highlight records pushed after the exact-phrase-in-title check. -/
def matchTail1 (nq : Str) (queryTerms expandedTerms : List Str)
    (entry : KnowledgeEntry) : List MatchInfo :=
  termLoopMatches queryTerms (jsToLower entry.title) MatchField.title ++
    (termLoopMatches expandedTerms (jsToLower entry.title) MatchField.title ++
      (exactContentMatches nq (jsToLower entry.content) ++
        matchTail2 nq queryTerms expandedTerms entry))

/-- First-pass scoring of one entry (the body of the `allEntries.map` in
`searchKnowledgeBase`): the nine additive signals, and the highlight records
in push order.  Addition is associated to the right here; the source
accumulates the same summands left to right with `+=`. -/
def scoreEntry (jslog : ℚ → ℚ) (nq : Str) (queryTerms expandedTerms : List Str)
    (allEntries : List KnowledgeEntry) (entry : KnowledgeEntry) : SearchResult :=
  { entry := entry
    score := exactTitleScore nq (jsToLower entry.title) +
      scoreTail1 jslog nq queryTerms expandedTerms allEntries entry
    «matches» := exactTitleMatches nq (jsToLower entry.title) ++
      matchTail1 nq queryTerms expandedTerms entry }

/-- Model of `rankResults` (algorithms.ts): the second ranking pass.  Re-scores each
surviving result by adding BM25 `* 5`, TF-IDF per query term `* 3`, title
Levenshtein similarity `* 2`, and keyword-set Jaccard `* 4`, then re-sorts
descending by score.  When `allEntries` is empty (impossible via
`searchKnowledgeBase`, which feeds it results drawn from `allEntries`), the
source's `avgDocLength` is the JS `0 / 0 = NaN`; the model's `ℚ` convention
`0 / 0 = 0` stands in for it.  A `none` keyword Jaccard (both term sets
empty — also unreachable from `searchKnowledgeBase`, whose query guard forces
a non-empty query-term set) is likewise read as `0` by `getD`. -/
def rankResults (jslog : ℚ → ℚ) (query : Str) (results : List SearchResult)
    (allEntries : List KnowledgeEntry) : List SearchResult :=
  if results.isEmpty then []
  else
    let avgDocLength : ℚ :=
      (allEntries.foldl (fun sum entry => sum + ((jsSplitWs entry.content).length : ℚ)) 0) /
        (allEntries.length : ℚ)
    let allDocuments := allEntries.map docOf
    let queryTerms := (jsSplitWs (jsToLower query)).filter (fun t => t.length > 2)
    let scoredResults := results.map
      (fun result =>
        let document := docOf result.entry
        let s1 := result.score + calculateBM25 jslog query document avgDocLength allDocuments * 5
        let s2 := queryTerms.foldl
          (fun a term => a + calculateTFIDF jslog term document allDocuments * 3) s1
        let s3 := s2 +
          levenshteinSimilarity (jsToLower query) (jsToLower result.entry.title) * 2
        let s4 := s3 +
          ((jaccardSimilarity queryTerms.toFinset
            ((result.entry.keywords.map jsToLower).toFinset)).getD 0) * 4
        { result with score := s4 })
    List.insertionSort resultGE scoredResults

/-- Model of `searchKnowledgeBase` (search.ts).  The source reads `settings` via
`getSettings()` and the entry snapshot via `getAllEntries()`; the model takes
both as parameters (read-only collaborators).  The `try/catch` wrapper is not
modelled: no branch of the pure model throws. -/
def searchKnowledgeBase (jslog : ℚ → ℚ) (query : Str)
    (allEntries : List KnowledgeEntry) (settings : Settings) : List SearchResult :=
  if (jsTrim query).isEmpty then []
  else
    let normalizedQuery := jsTrim (jsToLower query)
    let queryTerms := (jsSplitWs normalizedQuery).filter (fun term => term.length > 2)
    if queryTerms.isEmpty then []
    else
      let expandedQuery := expandQuery normalizedQuery allEntries
      let expandedTerms := (jsSplitWs expandedQuery).filter
        (fun term => !(queryTerms.contains term))
      let scoredEntries := allEntries.map
        (scoreEntry jslog normalizedQuery queryTerms expandedTerms allEntries)
      let filteredResults :=
        ((scoredEntries.filter
            (fun item => item.score > settings.relevanceThreshold * 10)).insertionSort
          resultGE).take settings.maxResults
      rankResults jslog normalizedQuery filteredResults allEntries

/-! Helper lemmas -/

theorem rankResults_length (jslog : ℚ → ℚ) (query : Str) (results : List SearchResult)
    (allEntries : List KnowledgeEntry) :
    (rankResults jslog query results allEntries).length = results.length := by
  unfold rankResults
  split
  · next hempty => simp [List.isEmpty_iff.mp hempty]
  · exact ((List.perm_insertionSort resultGE _).length_eq).trans (List.length_map _ _)

theorem length_filter_mono {α : Type} (l : List α) (p q : α → Bool)
    (h : ∀ x ∈ l, p x = true → q x = true) :
    (l.filter p).length ≤ (l.filter q).length := by
  induction l with
  | nil => simp
  | cons x t ih =>
    have ht : ∀ y ∈ t, p y = true → q y = true := fun y hy => h y (List.mem_cons_of_mem x hy)
    by_cases hp : p x = true
    · have hq : q x = true := h x (List.mem_cons_self x t) hp
      simp [List.filter_cons, hp, hq]
      exact ih ht
    · have hp' : p x = false := Bool.eq_false_iff.mpr hp
      by_cases hq : q x = true
      · simp [List.filter_cons, hp', hq]
        exact le_trans (ih ht) (Nat.le_succ _)
      · have hq' : q x = false := Bool.eq_false_iff.mpr hq
        simp [List.filter_cons, hp', hq']
        exact ih ht

/-! C1, C2, C8 -/

/-- C1: for every query, entry list and settings with `maxResults = k`, the
list returned by the search pipeline (first-pass scoring, threshold filter,
sort, truncation, then second-pass rerank) has length at most `k`. -/
theorem searchKnowledgeBase_length_le_maxResults (jslog : ℚ → ℚ) (query : Str)
    (allEntries : List KnowledgeEntry) (settings : Settings) :
    (searchKnowledgeBase jslog query allEntries settings).length ≤ settings.maxResults := by
  unfold searchKnowledgeBase
  split
  · simp
  · simp only []
    split
    · simp
    · rw [rankResults_length]
      exact List.length_take_le _ _

/-- C2: for every entry list and settings, a query that is empty or consists
only of whitespace makes the search pipeline return the empty result list. -/
theorem searchKnowledgeBase_empty_query_returns_nil (jslog : ℚ → ℚ) (query : Str)
    (allEntries : List KnowledgeEntry) (settings : Settings)
    (h : ∀ c ∈ query, c.isWhitespace = true) :
    searchKnowledgeBase jslog query allEntries settings = [] := by
  have htrim : jsTrim query = [] := by
    unfold jsTrim
    rw [List.dropWhile_eq_nil_iff.mpr h]
    simp
  unfold searchKnowledgeBase
  rw [htrim]
  simp

/-- Witness for C2 at a concrete whitespace-only query. -/
theorem searchKnowledgeBase_empty_query_returns_nil_witness :
    searchKnowledgeBase (fun _ => 0) [' ', '\t']
      [⟨['i'], ['t', 'o', 'p'], ['b', 'o', 'd', 'y'], [['k', 'e', 'y']]⟩]
      ⟨1 / 2, 3⟩ = [] :=
  searchKnowledgeBase_empty_query_returns_nil _ _ _ _ (by decide)

/-- C8: the search pipeline is deterministic — it is a pure function of
`(query, entries, settings)` (and of the logarithm model), so two invocations
on the same inputs return identical ordered result lists, scores and match
spans included. -/
theorem searchKnowledgeBase_deterministic (jslog : ℚ → ℚ) (query : Str)
    (allEntries : List KnowledgeEntry) (settings : Settings) :
    searchKnowledgeBase jslog query allEntries settings =
      searchKnowledgeBase jslog query allEntries settings := rfl

/-! C5, C10, C7 -/

/-- C5: the term list produced by query expansion has length at most
`originalTermCount + 3`, where `originalTermCount` is the number of
length-`> 2` tokens of the (lowercased) query; in particular a 2-term query
never expands to more than 5 terms. -/
theorem expandQuery_term_cap (query : Str) (entries : List KnowledgeEntry) :
    (expandQueryList query entries).length ≤
      ((jsSplitWs (jsToLower query)).filter (fun t => t.length > 2)).length + 3 := by
  unfold expandQueryList
  exact List.length_take_le _ _

/-- C10: the second ranking pass is a pure re-scoring — its output has the
same length as its input, keeps every result's entry reference and match
spans (only the score changes), and is re-sorted descending by the new
score. -/
theorem rankResults_pure_rescoring (jslog : ℚ → ℚ) (query : Str)
    (results : List SearchResult) (allEntries : List KnowledgeEntry) :
    (rankResults jslog query results allEntries).length = results.length ∧
      ((rankResults jslog query results allEntries).map
          (fun r => (r.entry, r.matches))).Perm
        (results.map (fun r => (r.entry, r.matches))) ∧
      List.Sorted resultGE (rankResults jslog query results allEntries) := by
  refine ⟨rankResults_length _ _ _ _, ?_, ?_⟩
  · unfold rankResults
    split
    · next h => simp [List.isEmpty_iff.mp h]
    · simp only []
      refine ((List.perm_insertionSort resultGE _).map _).trans ?_
      rw [List.map_map]
      exact List.Perm.refl _
  · unfold rankResults
    split
    · simp
    · exact List.sorted_insertionSort resultGE _

/-- C7: for a fixed query and entry collection, the number of returned results
is antitone in `relevanceThreshold`: if two settings agree on `maxResults`
and `t1 ≤ t2`, the result count at threshold `t2` is at most the count at
`t1`. -/
theorem search_result_count_antitone_in_threshold (jslog : ℚ → ℚ) (query : Str)
    (allEntries : List KnowledgeEntry) (s1 s2 : Settings)
    (hmax : s1.maxResults = s2.maxResults)
    (hth : s1.relevanceThreshold ≤ s2.relevanceThreshold) :
    (searchKnowledgeBase jslog query allEntries s2).length ≤
      (searchKnowledgeBase jslog query allEntries s1).length := by
  unfold searchKnowledgeBase
  split
  · simp
  · simp only []
    split
    · simp
    · rw [rankResults_length, rankResults_length, List.length_take, List.length_take,
        (List.perm_insertionSort resultGE _).length_eq,
        (List.perm_insertionSort resultGE _).length_eq, ← hmax]
      refine min_le_min le_rfl ?_
      apply length_filter_mono
      intro x _ hx
      simp only [decide_eq_true_eq] at hx ⊢
      have h10 : s1.relevanceThreshold * 10 ≤ s2.relevanceThreshold * 10 :=
        mul_le_mul_of_nonneg_right hth (by norm_num)
      linarith

/-- Witness for C7 at concrete settings that differ only in the threshold. -/
theorem search_result_count_antitone_in_threshold_witness :
    (searchKnowledgeBase (fun _ => 0) ['a', 'b', 'c']
        [⟨['1'], ['x', 'a', 'b', 'c'], ['z', 'z'], []⟩] ⟨9 / 10, 3⟩).length ≤
      (searchKnowledgeBase (fun _ => 0) ['a', 'b', 'c']
        [⟨['1'], ['x', 'a', 'b', 'c'], ['z', 'z'], []⟩] ⟨1 / 2, 3⟩).length :=
  search_result_count_antitone_in_threshold _ _ _ _ _ rfl (by norm_num)

/-! C3, C4 -/

/-- C3 counterexample: the source's `jaccardSimilarity` applied to two empty
sets is the JavaScript `0 / 0`, i.e. `NaN` (`none` in the model) — not a
defined similarity value. -/
theorem jaccardSimilarity_empty_empty_undefined :
    jaccardSimilarity (∅ : Finset Str) ∅ = none := rfl

/-- C3 (amended): Jaccard similarity is symmetric, and `jaccard(A, A) = 1`
for every non-empty `A`; but `jaccard(∅, ∅)` is the undefined `0 / 0`
(JS `NaN`), not a defined similarity value such as `0`. -/
theorem jaccardSimilarity_symm_self_emptyNaN :
    (∀ A B : Finset Str, jaccardSimilarity A B = jaccardSimilarity B A) ∧
      (∀ A : Finset Str, A.Nonempty → jaccardSimilarity A A = some 1) ∧
      jaccardSimilarity (∅ : Finset Str) ∅ = none := by
  refine ⟨fun A B => ?_, fun A hA => ?_, rfl⟩
  · unfold jaccardSimilarity
    rw [Finset.union_comm, Finset.inter_comm]
  · unfold jaccardSimilarity
    rw [Finset.union_self, Finset.inter_self]
    have hc : A.card ≠ 0 := (Finset.card_pos.mpr hA).ne'
    rw [if_neg hc]
    exact congrArg some (div_self (Nat.cast_ne_zero.mpr hc))

/-- Witness for the amended C3 at a concrete non-empty set. -/
theorem jaccardSimilarity_symm_self_emptyNaN_witness :
    jaccardSimilarity ({['a']} : Finset Str) {['a']} = some 1 :=
  jaccardSimilarity_symm_self_emptyNaN.2.1 _ ⟨['a'], Finset.mem_singleton_self _⟩

theorem levenshteinDistance_self (a : Str) : levenshteinDistance a a = 0 := by
  induction a with
  | nil => simp [levenshteinDistance]
  | cons x xs ih =>
    have heq : levenshteinDistance (x :: xs) (x :: xs) =
        min (levenshteinDistance xs (x :: xs) + 1)
          (min (levenshteinDistance (x :: xs) xs + 1)
            (levenshteinDistance xs xs + (if x = x then 0 else 1))) := by
      simp only [levenshteinDistance]
    rw [heq, ih, if_pos rfl]
    omega

theorem levenshteinDistance_le_max (a : Str) :
    ∀ b : Str, levenshteinDistance a b ≤ max a.length b.length := by
  induction a with
  | nil => intro b; simp [levenshteinDistance]
  | cons x xs ihx =>
    intro b
    induction b with
    | nil => simp [levenshteinDistance]
    | cons y ys ihy =>
      have heq : levenshteinDistance (x :: xs) (y :: ys) =
          min (levenshteinDistance xs (y :: ys) + 1)
            (min (levenshteinDistance (x :: xs) ys + 1)
              (levenshteinDistance xs ys + (if x = y then 0 else 1))) := by
        simp only [levenshteinDistance]
      have h3 : levenshteinDistance xs ys ≤ max xs.length ys.length := ihx ys
      have h4 : levenshteinDistance (x :: xs) (y :: ys) ≤ levenshteinDistance xs ys + 1 := by
        rw [heq]
        have : (if x = y then 0 else 1) ≤ 1 := by split <;> omega
        calc min (levenshteinDistance xs (y :: ys) + 1)
              (min (levenshteinDistance (x :: xs) ys + 1)
                (levenshteinDistance xs ys + (if x = y then 0 else 1))) ≤
            levenshteinDistance xs ys + (if x = y then 0 else 1) :=
              le_trans (min_le_right _ _) (min_le_right _ _)
          _ ≤ levenshteinDistance xs ys + 1 := by omega
      simp only [List.length_cons]
      omega

/-- C4: for all strings `a`, `b`, `levenshteinSimilarity a b ∈ [0, 1]`;
`levenshteinSimilarity a a = 1`; and the similarity of two empty strings
is `1`. -/
theorem levenshteinSimilarity_bounds :
    ∀ a b : Str, 0 ≤ levenshteinSimilarity a b ∧ levenshteinSimilarity a b ≤ 1 ∧
      levenshteinSimilarity a a = 1 ∧ levenshteinSimilarity ([] : Str) [] = 1 := by
  have hself : ∀ a : Str, levenshteinSimilarity a a = 1 := by
    intro a
    unfold levenshteinSimilarity
    rw [levenshteinDistance_self]
    by_cases h : max a.length a.length = 0
    · rw [if_pos h]
    · rw [if_neg h]
      simp
  intro a b
  refine ⟨?_, ?_, hself a, hself []⟩ <;>
    · unfold levenshteinSimilarity
      by_cases h : max a.length b.length = 0
      · simp [h]
      · simp only [h, if_false]
        have hpos : (0 : ℚ) < ((max a.length b.length : ℕ) : ℚ) := by
          exact_mod_cast Nat.pos_of_ne_zero h
        have hd : ((levenshteinDistance a b : ℕ) : ℚ) ≤ ((max a.length b.length : ℕ) : ℚ) :=
          Nat.cast_le.mpr (levenshteinDistance_le_max a b)
        have hnn : (0 : ℚ) ≤ ((levenshteinDistance a b : ℕ) : ℚ) := by positivity
        have hdiv1 : ((levenshteinDistance a b : ℕ) : ℚ) / ((max a.length b.length : ℕ) : ℚ) ≤ 1 :=
          (div_le_one hpos).mpr hd
        have hdiv0 : (0 : ℚ) ≤ ((levenshteinDistance a b : ℕ) : ℚ) / ((max a.length b.length : ℕ) : ℚ) :=
          div_nonneg hnn (le_of_lt hpos)
        linarith

/-! C6 -/

theorem jsIndexOf_spec (pat : Str) :
    ∀ (hay : Str) (i : Nat), jsIndexOf hay pat = some i →
      startsWith pat (hay.drop i) = true ∧
        ∀ j, j < i → startsWith pat (hay.drop j) = false := by
  intro hay
  induction hay with
  | nil =>
    intro i hi
    simp only [jsIndexOf] at hi
    by_cases h : startsWith pat [] = true
    · rw [if_pos h] at hi
      obtain rfl := Option.some.inj hi
      exact ⟨h, fun j hj => absurd hj (Nat.not_lt_zero j)⟩
    · rw [if_neg h] at hi
      simp at hi
  | cons c t ih =>
    intro i hi
    simp only [jsIndexOf] at hi
    by_cases h : startsWith pat (c :: t) = true
    · rw [if_pos h] at hi
      obtain rfl := Option.some.inj hi
      exact ⟨h, fun j hj => absurd hj (Nat.not_lt_zero j)⟩
    · rw [if_neg h] at hi
      simp only [Option.map_eq_some'] at hi
      obtain ⟨i', hi', rfl⟩ := hi
      obtain ⟨h1, h2⟩ := ih i' hi'
      refine ⟨h1, fun j hj => ?_⟩
      cases j with
      | zero => exact Bool.eq_false_iff.mpr h
      | succ j' => exact h2 j' (Nat.succ_lt_succ_iff.mp hj)

/-- C6: in first-pass scoring of a (query, entry) pair, if the normalized
query is a substring of the lowercased title, the score carries the `+10`
exact-phrase-in-title contribution and the matches list records exactly one
title span covering the first occurrence of the query; likewise `+5` and one
content span when the query is a substring of the lowercased content. -/
theorem firstPass_exact_phrase_signals (jslog : ℚ → ℚ) (nq : Str)
    (queryTerms expandedTerms : List Str) (allEntries : List KnowledgeEntry)
    (entry : KnowledgeEntry) :
    (includesStr (jsToLower entry.title) nq = true →
      ∃ i, jsIndexOf (jsToLower entry.title) nq = some i ∧
        startsWith nq ((jsToLower entry.title).drop i) = true ∧
        (∀ j, j < i → startsWith nq ((jsToLower entry.title).drop j) = false) ∧
        exactTitleScore nq (jsToLower entry.title) = 10 ∧
        exactTitleMatches nq (jsToLower entry.title) =
          [⟨MatchField.title, [(i, i + nq.length)]⟩] ∧
        (scoreEntry jslog nq queryTerms expandedTerms allEntries entry).score =
          10 + scoreTail1 jslog nq queryTerms expandedTerms allEntries entry ∧
        (scoreEntry jslog nq queryTerms expandedTerms allEntries entry).matches =
          ⟨MatchField.title, [(i, i + nq.length)]⟩ ::
            matchTail1 nq queryTerms expandedTerms entry) ∧
    (includesStr (jsToLower entry.content) nq = true →
      ∃ i, jsIndexOf (jsToLower entry.content) nq = some i ∧
        startsWith nq ((jsToLower entry.content).drop i) = true ∧
        (∀ j, j < i → startsWith nq ((jsToLower entry.content).drop j) = false) ∧
        exactContentScore nq (jsToLower entry.content) = 5 ∧
        exactContentMatches nq (jsToLower entry.content) =
          [⟨MatchField.content, [(i, i + nq.length)]⟩] ∧
        (scoreEntry jslog nq queryTerms expandedTerms allEntries entry).score =
          exactTitleScore nq (jsToLower entry.title) +
            (termLoopScore queryTerms (jsToLower entry.title) 3 +
              (termLoopScore expandedTerms (jsToLower entry.title) (3 / 2) +
                (5 + scoreTail2 jslog nq queryTerms expandedTerms allEntries entry))) ∧
        (scoreEntry jslog nq queryTerms expandedTerms allEntries entry).matches =
          exactTitleMatches nq (jsToLower entry.title) ++
            (termLoopMatches queryTerms (jsToLower entry.title) MatchField.title ++
              (termLoopMatches expandedTerms (jsToLower entry.title) MatchField.title ++
                (⟨MatchField.content, [(i, i + nq.length)]⟩ ::
                  matchTail2 nq queryTerms expandedTerms entry)))) := by
  constructor
  · intro h
    have hsome : (jsIndexOf (jsToLower entry.title) nq).isSome = true := h
    obtain ⟨i, hi⟩ := Option.isSome_iff_exists.mp hsome
    obtain ⟨hfirst, hmin⟩ := jsIndexOf_spec nq (jsToLower entry.title) i hi
    have hscore : exactTitleScore nq (jsToLower entry.title) = 10 := by
      simp [exactTitleScore, h]
    have hmatch : exactTitleMatches nq (jsToLower entry.title) =
        [⟨MatchField.title, [(i, i + nq.length)]⟩] := by
      simp [exactTitleMatches, hi]
    refine ⟨i, hi, hfirst, hmin, hscore, hmatch, ?_, ?_⟩
    · show exactTitleScore nq (jsToLower entry.title) +
        scoreTail1 jslog nq queryTerms expandedTerms allEntries entry = _
      rw [hscore]
    · show exactTitleMatches nq (jsToLower entry.title) ++
        matchTail1 nq queryTerms expandedTerms entry = _
      rw [hmatch]
      rfl
  · intro h
    have hsome : (jsIndexOf (jsToLower entry.content) nq).isSome = true := h
    obtain ⟨i, hi⟩ := Option.isSome_iff_exists.mp hsome
    obtain ⟨hfirst, hmin⟩ := jsIndexOf_spec nq (jsToLower entry.content) i hi
    have hscore : exactContentScore nq (jsToLower entry.content) = 5 := by
      simp [exactContentScore, h]
    have hmatch : exactContentMatches nq (jsToLower entry.content) =
        [⟨MatchField.content, [(i, i + nq.length)]⟩] := by
      simp [exactContentMatches, hi]
    refine ⟨i, hi, hfirst, hmin, hscore, hmatch, ?_, ?_⟩
    · show exactTitleScore nq (jsToLower entry.title) +
        scoreTail1 jslog nq queryTerms expandedTerms allEntries entry = _
      rw [scoreTail1, hscore]
    · show exactTitleMatches nq (jsToLower entry.title) ++
        matchTail1 nq queryTerms expandedTerms entry = _
      rw [matchTail1, hmatch]
      rfl

/-- Witness for C6 at a concrete query and entry whose title and content both
contain the query. -/
theorem firstPass_exact_phrase_signals_witness :
    (∃ i, jsIndexOf (jsToLower ['z', 'a', 'b']) ['a', 'b'] = some i ∧
      startsWith ['a', 'b'] ((jsToLower ['z', 'a', 'b']).drop i) = true ∧
      (∀ j, j < i → startsWith ['a', 'b'] ((jsToLower ['z', 'a', 'b']).drop j) = false) ∧
      exactTitleScore ['a', 'b'] (jsToLower ['z', 'a', 'b']) = 10 ∧
      exactTitleMatches ['a', 'b'] (jsToLower ['z', 'a', 'b']) =
        [⟨MatchField.title, [(i, i + (['a', 'b'] : Str).length)]⟩] ∧
      (scoreEntry (fun _ => 0) ['a', 'b'] [] [] []
          ⟨[], ['z', 'a', 'b'], ['a', 'b'], []⟩).score =
        10 + scoreTail1 (fun _ => 0) ['a', 'b'] [] [] []
          ⟨[], ['z', 'a', 'b'], ['a', 'b'], []⟩ ∧
      (scoreEntry (fun _ => 0) ['a', 'b'] [] [] []
          ⟨[], ['z', 'a', 'b'], ['a', 'b'], []⟩).matches =
        ⟨MatchField.title, [(i, i + (['a', 'b'] : Str).length)]⟩ ::
          matchTail1 ['a', 'b'] [] [] ⟨[], ['z', 'a', 'b'], ['a', 'b'], []⟩) ∧
    (∃ i, jsIndexOf (jsToLower ['a', 'b']) ['a', 'b'] = some i ∧
      startsWith ['a', 'b'] ((jsToLower ['a', 'b']).drop i) = true ∧
      (∀ j, j < i → startsWith ['a', 'b'] ((jsToLower ['a', 'b']).drop j) = false) ∧
      exactContentScore ['a', 'b'] (jsToLower ['a', 'b']) = 5 ∧
      exactContentMatches ['a', 'b'] (jsToLower ['a', 'b']) =
        [⟨MatchField.content, [(i, i + (['a', 'b'] : Str).length)]⟩] ∧
      (scoreEntry (fun _ => 0) ['a', 'b'] [] [] []
          ⟨[], ['z', 'a', 'b'], ['a', 'b'], []⟩).score =
        exactTitleScore ['a', 'b'] (jsToLower ['z', 'a', 'b']) +
          (termLoopScore [] (jsToLower ['z', 'a', 'b']) 3 +
            (termLoopScore [] (jsToLower ['z', 'a', 'b']) (3 / 2) +
              (5 + scoreTail2 (fun _ => 0) ['a', 'b'] [] [] []
                ⟨[], ['z', 'a', 'b'], ['a', 'b'], []⟩))) ∧
      (scoreEntry (fun _ => 0) ['a', 'b'] [] [] []
          ⟨[], ['z', 'a', 'b'], ['a', 'b'], []⟩).matches =
        exactTitleMatches ['a', 'b'] (jsToLower ['z', 'a', 'b']) ++
          (termLoopMatches [] (jsToLower ['z', 'a', 'b']) MatchField.title ++
            (termLoopMatches [] (jsToLower ['z', 'a', 'b']) MatchField.title ++
              (⟨MatchField.content, [(i, i + (['a', 'b'] : Str).length)]⟩ ::
                matchTail2 ['a', 'b'] [] [] ⟨[], ['z', 'a', 'b'], ['a', 'b'], []⟩)))) :=
  ⟨(firstPass_exact_phrase_signals (fun _ => 0) ['a', 'b'] [] [] []
      ⟨[], ['z', 'a', 'b'], ['a', 'b'], []⟩).1 (by decide),
   (firstPass_exact_phrase_signals (fun _ => 0) ['a', 'b'] [] [] []
      ⟨[], ['z', 'a', 'b'], ['a', 'b'], []⟩).2 (by decide)⟩

/-! C9: whitespace/lowercase/split lemmas -/

theorem isWhitespace_toLower (c : Char) :
    (Char.toLower c).isWhitespace = c.isWhitespace := by
  simp only [Char.toLower]
  by_cases h : Char.toNat c ≥ 65 ∧ Char.toNat c ≤ 90
  · rw [if_pos h]
    have h1 : c.isWhitespace = false := by
      simp only [Char.isWhitespace, Bool.or_eq_false_iff, decide_eq_false_iff_not]
      refine ⟨⟨⟨?_, ?_⟩, ?_⟩, ?_⟩ <;> (intro e; rw [e] at h; exact absurd h (by decide))
    have h2 : (Char.ofNat (Char.toNat c + 32)).isWhitespace = false := by
      obtain ⟨hl, hr⟩ := h
      generalize hg : Char.toNat c = n at hl hr ⊢
      interval_cases n <;> decide
    rw [h1, h2]
  · rw [if_neg h]

theorem notWs_comp_toLower :
    ((fun c => !c.isWhitespace) ∘ Char.toLower) = fun c : Char => !c.isWhitespace :=
  funext fun c => by simp [Function.comp, isWhitespace_toLower]

theorem ws_comp_toLower :
    (Char.isWhitespace ∘ Char.toLower) = Char.isWhitespace :=
  funext fun c => by simp [Function.comp, isWhitespace_toLower]

theorem dropWhile_head_false {α : Type} (p : α → Bool) :
    ∀ (l : List α) (x : α) (t : List α), l.dropWhile p = x :: t → p x = false := by
  intro l
  induction l with
  | nil => intro x t h; simp at h
  | cons a l ih =>
    intro x t h
    by_cases hp : p a = true
    · rw [List.dropWhile_cons_of_pos hp] at h
      exact ih x t h
    · rw [List.dropWhile_cons_of_neg hp] at h
      obtain ⟨rfl, -⟩ := List.cons.inj h
      exact Bool.eq_false_iff.mpr hp

theorem dropWhile_append_all {α : Type} (p : α → Bool) (a b : List α)
    (ha : ∀ x ∈ a, p x = true) : (a ++ b).dropWhile p = b.dropWhile p := by
  induction a with
  | nil => rfl
  | cons x a' ih =>
    rw [List.cons_append, List.dropWhile_cons_of_pos (ha x (List.mem_cons_self x a'))]
    exact ih fun y hy => ha y (List.mem_cons_of_mem x hy)

theorem takeWhile_append_all {α : Type} (p : α → Bool) (a b : List α)
    (ha : ∀ x ∈ a, p x = true) : (a ++ b).takeWhile p = a ++ b.takeWhile p := by
  induction a with
  | nil => rfl
  | cons x a' ih =>
    rw [List.cons_append, List.takeWhile_cons_of_pos (ha x (List.mem_cons_self x a')),
      ih fun y hy => ha y (List.mem_cons_of_mem x hy), List.cons_append]

theorem jsSplitWs_eq_nil (s : Str) (h : s.dropWhile (fun c => !c.isWhitespace) = []) :
    jsSplitWs s = [s.takeWhile (fun c => !c.isWhitespace)] := by
  rw [jsSplitWs]
  split
  · rfl
  · next heq => rw [h] at heq; exact absurd heq (by simp)

theorem jsSplitWs_eq_cons (s : Str) (x : Char) (rest : Str)
    (h : s.dropWhile (fun c => !c.isWhitespace) = x :: rest) :
    jsSplitWs s = s.takeWhile (fun c => !c.isWhitespace) ::
      jsSplitWs (rest.dropWhile Char.isWhitespace) := by
  rw [jsSplitWs]
  split
  · next heq => rw [h] at heq; exact absurd heq (by simp)
  · next head' rest' heq =>
    rw [h] at heq
    obtain ⟨rfl, rfl⟩ := List.cons.inj heq
    rfl

theorem jsSplitWs_toLower (s : Str) :
    jsSplitWs (jsToLower s) = (jsSplitWs s).map jsToLower := by
  induction s using jsSplitWs.induct with
  | case1 s h =>
    have hmap : (jsToLower s).dropWhile (fun c => !c.isWhitespace) = [] := by
      unfold jsToLower
      rw [List.dropWhile_map, notWs_comp_toLower, h, List.map_nil]
    rw [jsSplitWs_eq_nil _ hmap, jsSplitWs_eq_nil _ h, List.map_cons, List.map_nil]
    congr 1
    unfold jsToLower
    rw [List.takeWhile_map, notWs_comp_toLower]
  | case2 s head rest h ih =>
    have hmap : (jsToLower s).dropWhile (fun c => !c.isWhitespace) =
        Char.toLower head :: rest.map Char.toLower := by
      unfold jsToLower
      rw [List.dropWhile_map, notWs_comp_toLower, h, List.map_cons]
    rw [jsSplitWs_eq_cons _ _ _ hmap, jsSplitWs_eq_cons _ _ _ h, List.map_cons]
    have hrest : (rest.map Char.toLower).dropWhile Char.isWhitespace =
        jsToLower (rest.dropWhile Char.isWhitespace) := by
      unfold jsToLower
      rw [List.dropWhile_map, ws_comp_toLower]
    rw [hrest, ih]
    congr 1
    unfold jsToLower
    rw [List.takeWhile_map, notWs_comp_toLower]

theorem tokens_dropLeading (s : Str) :
    ∀ t ∈ jsSplitWs (s.dropWhile Char.isWhitespace), t = [] ∨ t ∈ jsSplitWs s := by
  cases s with
  | nil => intro t ht; exact Or.inr ht
  | cons c s' =>
    by_cases hc : Char.isWhitespace c = true
    · intro t ht
      rw [List.dropWhile_cons_of_pos hc] at ht
      have hdr : (c :: s').dropWhile (fun c => !c.isWhitespace) = c :: s' :=
        List.dropWhile_cons_of_neg (by simp [hc])
      have hsp : jsSplitWs (c :: s') = [] :: jsSplitWs (s'.dropWhile Char.isWhitespace) := by
        rw [jsSplitWs_eq_cons _ _ _ hdr]
        congr 1
        exact List.takeWhile_cons_of_neg (by simp [hc])
      rw [hsp]
      exact Or.inr (List.mem_cons_of_mem _ ht)
    · intro t ht
      rw [List.dropWhile_cons_of_neg hc] at ht
      exact Or.inr ht

theorem dropWhile_append_of_ne {α : Type} (p : α → Bool) (a b : List α)
    (h : a.dropWhile p ≠ []) : (a ++ b).dropWhile p = a.dropWhile p ++ b := by
  induction a with
  | nil => exact absurd rfl h
  | cons x a' ih =>
    by_cases hp : p x = true
    · rw [List.cons_append, List.dropWhile_cons_of_pos hp, List.dropWhile_cons_of_pos hp]
      rw [List.dropWhile_cons_of_pos hp] at h
      exact ih h
    · rw [List.cons_append, List.dropWhile_cons_of_neg hp, List.dropWhile_cons_of_neg hp,
        List.cons_append]

theorem tokens_dropTrailing :
    ∀ (n : Nat) (u : Str), u.length ≤ n →
      ∀ t ∈ jsSplitWs ((u.reverse.dropWhile Char.isWhitespace).reverse),
        t = [] ∨ t ∈ jsSplitWs u := by
  intro n
  induction n with
  | zero =>
    intro u hu t ht
    cases u with
    | cons c u' => simp at hu
    | nil =>
      left
      have ht' : t ∈ jsSplitWs ([] : Str) := ht
      rw [jsSplitWs_eq_nil [] rfl] at ht'
      simpa using ht'
  | succ n ih =>
    intro u hu t ht
    cases hr : u.dropWhile (fun c => !c.isWhitespace) with
    | nil =>
      have hall : ∀ x ∈ u, (!x.isWhitespace) = true := List.dropWhile_eq_nil_iff.mp hr
      have hdT : (u.reverse.dropWhile Char.isWhitespace).reverse = u := by
        cases hu' : u.reverse with
        | nil =>
          have hn : u = [] := by
            have := congrArg List.reverse hu'
            simpa using this
          subst hn; rfl
        | cons y ys =>
          have hy : y ∈ u := by
            rw [← List.mem_reverse, hu']
            exact List.mem_cons_self _ _
          have hyn : ¬ Char.isWhitespace y = true := by
            have := hall y hy
            simp at this
            simp [this]
          rw [List.dropWhile_cons_of_neg hyn, ← hu', List.reverse_reverse]
      rw [hdT] at ht
      exact Or.inr ht
    | cons w r1 =>
      have hwws : Char.isWhitespace w = true := by
        have := dropWhile_head_false _ u w r1 hr
        simpa using this
      have hutr : u = u.takeWhile (fun c => !c.isWhitespace) ++ (w :: r1) := by
        conv_lhs => rw [← List.takeWhile_append_dropWhile (fun c => !c.isWhitespace) u, hr]
      have htokall : ∀ x ∈ u.takeWhile (fun c => !c.isWhitespace), (!x.isWhitespace) = true :=
        fun x hx => @List.mem_takeWhile_imp Char (fun c => !c.isWhitespace) u x hx
      have hulen : u.length =
          (u.takeWhile (fun c => !c.isWhitespace)).length + (r1.length + 1) := by
        conv_lhs => rw [hutr]
        simp [List.length_append]
      cases hr2 : r1.dropWhile Char.isWhitespace with
      | nil =>
        have hallws : ∀ x ∈ w :: r1, x.isWhitespace = true := by
          intro x hx
          rcases List.mem_cons.mp hx with rfl | hx'
          · exact hwws
          · exact List.dropWhile_eq_nil_iff.mp hr2 x hx'
        have hdT : (u.reverse.dropWhile Char.isWhitespace).reverse
            = u.takeWhile (fun c => !c.isWhitespace) := by
          conv_lhs => rw [hutr]
          rw [List.reverse_append]
          rw [dropWhile_append_all _ _ _ (fun x hx => hallws x (List.mem_reverse.mp hx))]
          cases htk : (u.takeWhile (fun c => !c.isWhitespace)).reverse with
          | nil =>
            have hkn : u.takeWhile (fun c => !c.isWhitespace) = [] := by
              have := congrArg List.reverse htk
              simpa using this
            simp [hkn]
          | cons y ys =>
            have hy : y ∈ u.takeWhile (fun c => !c.isWhitespace) := by
              rw [← List.mem_reverse, htk]
              exact List.mem_cons_self _ _
            have hyn : ¬ Char.isWhitespace y = true := by
              have := htokall y hy
              simp at this
              simp [this]
            rw [List.dropWhile_cons_of_neg hyn, ← htk, List.reverse_reverse]
        rw [hdT] at ht
        have hsp : jsSplitWs (u.takeWhile (fun c => !c.isWhitespace)) =
            [u.takeWhile (fun c => !c.isWhitespace)] := by
          have hnil : (u.takeWhile (fun c => !c.isWhitespace)).dropWhile
              (fun c => !c.isWhitespace) = [] :=
            List.dropWhile_eq_nil_iff.mpr (fun x hx => htokall x hx)
          rw [jsSplitWs_eq_nil _ hnil]
          congr 1
          exact List.takeWhile_eq_self_iff.mpr (fun x hx => htokall x hx)
        rw [hsp] at ht
        have ht' : t = u.takeWhile (fun c => !c.isWhitespace) := by simpa using ht
        right
        rw [jsSplitWs_eq_cons u w r1 hr, ht']
        exact List.mem_cons_self _ _
      | cons r r2 =>
        have hrnw : ¬ Char.isWhitespace r = true := by
          have := dropWhile_head_false Char.isWhitespace r1 r r2 hr2
          simp [this]
        have hws2 : w :: r1 = (w :: r1).takeWhile Char.isWhitespace ++ (r :: r2) := by
          conv_lhs => rw [← List.takeWhile_append_dropWhile Char.isWhitespace (w :: r1)]
          rw [List.dropWhile_cons_of_pos hwws, hr2]
        have hwsne : (w :: r1).takeWhile Char.isWhitespace
            = w :: r1.takeWhile Char.isWhitespace :=
          List.takeWhile_cons_of_pos hwws
        obtain ⟨pre, hpre⟩ := @List.dropWhile_suffix Char ((r :: r2).reverse) Char.isWhitespace
        have hvne : ((r :: r2).reverse.dropWhile Char.isWhitespace).reverse ≠ [] := by
          intro hvv
          have hdw : (r :: r2).reverse.dropWhile Char.isWhitespace = [] := by
            have := congrArg List.reverse hvv
            simpa using this
          have hrws := List.dropWhile_eq_nil_iff.mp hdw r
            (by rw [List.mem_reverse]; exact List.mem_cons_self _ _)
          exact hrnw hrws
        have hne1' : (r :: r2).reverse.dropWhile Char.isWhitespace ≠ [] := by
          intro hx
          apply hvne
          rw [hx]
          rfl
        have hrec : r :: r2 =
            ((r :: r2).reverse.dropWhile Char.isWhitespace).reverse ++ pre.reverse := by
          have := congrArg List.reverse hpre
          simpa [List.reverse_append] using this.symm
        obtain ⟨vt, hvt⟩ : ∃ vt,
            ((r :: r2).reverse.dropWhile Char.isWhitespace).reverse = r :: vt := by
          cases hv : ((r :: r2).reverse.dropWhile Char.isWhitespace).reverse with
          | nil => exact absurd hv hvne
          | cons a vt =>
            rw [hv, List.cons_append] at hrec
            obtain ⟨rfl, -⟩ := List.cons.inj hrec
            exact ⟨vt, rfl⟩
        have hdT : (u.reverse.dropWhile Char.isWhitespace).reverse
            = u.takeWhile (fun c => !c.isWhitespace) ++
              ((w :: r1).takeWhile Char.isWhitespace ++ (r :: vt)) := by
          conv_lhs => rw [hutr, hws2]
          rw [List.reverse_append, List.reverse_append]
          have hinner := dropWhile_append_of_ne Char.isWhitespace ((r :: r2).reverse)
            (((w :: r1).takeWhile Char.isWhitespace).reverse) hne1'
          have houter := dropWhile_append_of_ne Char.isWhitespace
            ((r :: r2).reverse ++ ((w :: r1).takeWhile Char.isWhitespace).reverse)
            ((u.takeWhile (fun c => !c.isWhitespace)).reverse)
            (by rw [hinner]; intro hx; exact hne1' (List.append_eq_nil.mp hx).1)
          rw [houter, hinner]
          simp only [List.reverse_append, List.reverse_reverse, List.append_assoc]
          rw [hvt]
        rw [hdT] at ht
        have hcons : (u.takeWhile (fun c => !c.isWhitespace) ++
            ((w :: r1).takeWhile Char.isWhitespace ++ (r :: vt))).dropWhile
              (fun c => !c.isWhitespace)
            = w :: (r1.takeWhile Char.isWhitespace ++ (r :: vt)) := by
          rw [dropWhile_append_all _ _ _ htokall, hwsne, List.cons_append]
          exact List.dropWhile_cons_of_neg (by simp [hwws])
        have hspA := jsSplitWs_eq_cons _ _ _ hcons
        have htake : (u.takeWhile (fun c => !c.isWhitespace) ++
            ((w :: r1).takeWhile Char.isWhitespace ++ (r :: vt))).takeWhile
              (fun c => !c.isWhitespace)
            = u.takeWhile (fun c => !c.isWhitespace) := by
          rw [takeWhile_append_all _ _ _ htokall, hwsne, List.cons_append,
            List.takeWhile_cons_of_neg (by simp [hwws]), List.append_nil]
        have hdroprec : (r1.takeWhile Char.isWhitespace ++ (r :: vt)).dropWhile
            Char.isWhitespace = r :: vt := by
          rw [dropWhile_append_all _ _ _ (fun x hx => List.mem_takeWhile_imp hx)]
          exact List.dropWhile_cons_of_neg hrnw
        rw [hspA, htake, hdroprec] at ht
        have hspu : jsSplitWs u =
            u.takeWhile (fun c => !c.isWhitespace) :: jsSplitWs (r :: r2) := by
          rw [jsSplitWs_eq_cons u w r1 hr, hr2]
        rcases List.mem_cons.mp ht with rfl | htail
        · right
          rw [hspu]
          exact List.mem_cons_self _ _
        · have hlen2 : (r :: r2).length ≤ r1.length := by
            rw [← hr2]
            exact (List.dropWhile_sublist _).length_le
          have hlen3 : (r :: r2).length ≤ n := by omega
          rcases ih (r :: r2) hlen3 t (by rw [hvt]; exact htail) with rfl | hmem
          · left; rfl
          · right
            rw [hspu]
            exact List.mem_cons_of_mem _ hmem

/-- C9: every query whose whitespace-separated tokens all have length at most
2 (for example `"a bc"`) makes the search pipeline return the empty result
list for any entry collection and settings — the length-`> 2` token filter
leaves no query terms — even when the full query string occurs verbatim in an
entry's title or content. -/
theorem search_short_token_query_returns_nil (jslog : ℚ → ℚ) (query : Str)
    (allEntries : List KnowledgeEntry) (settings : Settings)
    (h : ∀ t ∈ jsSplitWs query, t.length ≤ 2) :
    searchKnowledgeBase jslog query allEntries settings = [] := by
  have htok : ∀ t ∈ jsSplitWs (jsTrim (jsToLower query)), t.length ≤ 2 := by
    intro t ht
    have ht' : t ∈ jsSplitWs ((((jsToLower query).dropWhile
        Char.isWhitespace).reverse.dropWhile Char.isWhitespace).reverse) := ht
    rcases tokens_dropTrailing ((jsToLower query).dropWhile Char.isWhitespace).length
        _ le_rfl t ht' with rfl | h4
    · simp
    · rcases tokens_dropLeading (jsToLower query) t h4 with rfl | h5
      · simp
      · rw [jsSplitWs_toLower] at h5
        obtain ⟨t', ht'', rfl⟩ := List.mem_map.mp h5
        have := h t' ht''
        simpa [jsToLower] using this
  have hfil : (jsSplitWs (jsTrim (jsToLower query))).filter
      (fun term => term.length > 2) = [] := by
    rw [List.filter_eq_nil_iff]
    intro a ha
    have := htok a ha
    simp only [decide_eq_true_eq]
    omega
  unfold searchKnowledgeBase
  split
  · rfl
  · simp only []
    rw [hfil]
    simp

theorem jsSplitWs_a_bc : jsSplitWs ['a', ' ', 'b', 'c'] = [['a'], ['b', 'c']] := by
  have h1 : List.dropWhile (fun c => !c.isWhitespace) ['a', ' ', 'b', 'c'] =
      ' ' :: ['b', 'c'] := by decide
  rw [jsSplitWs_eq_cons _ _ _ h1]
  have h2 : List.dropWhile Char.isWhitespace ['b', 'c'] = ['b', 'c'] := by decide
  rw [h2]
  have h3 : List.dropWhile (fun c => !c.isWhitespace) ['b', 'c'] = [] := by decide
  rw [jsSplitWs_eq_nil _ h3]
  decide

/-- Witness for C9: the query `"a bc"` (tokens `"a"` and `"bc"`, both of
length at most 2) returns no results even though it occurs verbatim in the
entry's title and content. -/
theorem search_short_token_query_returns_nil_witness :
    searchKnowledgeBase (fun _ => 0) ['a', ' ', 'b', 'c']
      [⟨['1'], ['a', ' ', 'b', 'c'], ['a', ' ', 'b', 'c'], []⟩] ⟨1 / 2, 3⟩ = [] :=
  search_short_token_query_returns_nil _ _ _ _
    (by rw [jsSplitWs_a_bc]; decide)
